import Mathlib

/-!
Verification of the lease-management module `src/pubsub/src/subscriber/lease.rs`
of `gwik/google-cloud-rust` against its design specification.

The module is embedded shallowly:

* `std::time::Duration` is modelled as a nanosecond count (`Nat`); Rust
  durations are non-negative by construction, so `Nat` is exact for the
  operations used here (`min`, `max`, addition).
* `std::time::Instant` is modelled as a nanosecond count from an arbitrary
  epoch; `Instant + Duration` is `Nat` addition (the source relies on the
  same addition never overflowing).
* `Instant::now()` inside `DeadlinesTracker::register` is the only side
  effect in the fragment; it is made explicit as a `now : Instant` argument.
* `std::collections::HashMap<String, Deadline>` is modelled as an
  association list with the map operations the source uses (`insert`
  replaces the value of an existing key, `remove` deletes a key's entry and
  returns its value); starting from the empty map these operations keep the
  keys pairwise distinct, which is proved rather than assumed.
-/

/-- Rust `std::time::Duration`, as a nanosecond count. -/
abbrev Duration := Nat

/-- Rust `Duration::from_secs`. -/
def Duration.from_secs (n : Nat) : Duration := n * 1000000000

/-- Rust `std::time::Instant`, as a nanosecond count from an arbitrary epoch. -/
abbrev Instant := Nat

/-- The struct `LeaseExtensionSetting` of `lease.rs`. -/
structure LeaseExtensionSetting where
  max_extension : Duration
  max_extension_period : Option Duration
  min_extension_period : Option Duration
deriving DecidableEq

/-- Constant `MAX_DURATION_PER_LEASE_EXTENSION = Duration::from_secs(10 * 60)`.
(Declared in the source but not used by `bounded_duration`.) -/
def LeaseExtensionSetting.MAX_DURATION_PER_LEASE_EXTENSION : Duration :=
  Duration.from_secs (10 * 60)

/-- Constant `MIN_DURATION_PER_LEASE_EXTENSION = Duration::from_secs(10)`. -/
def LeaseExtensionSetting.MIN_DURATION_PER_LEASE_EXTENSION : Duration :=
  Duration.from_secs 10

/-- Constant `MIN_DURATION_PER_LEASE_EXTENSION_EXACTLY_ONCE = Duration::from_secs(60)`. -/
def LeaseExtensionSetting.MIN_DURATION_PER_LEASE_EXTENSION_EXACTLY_ONCE : Duration :=
  Duration.from_secs 60

/-- Constant `EXACTLY_ONCE_DELIVERY_RETRY_DEADLINE = Duration::from_secs(600)`.
(Declared in the source but not used by `bounded_duration`.) -/
def LeaseExtensionSetting.EXACTLY_ONCE_DELIVERY_RETRY_DEADLINE : Duration :=
  Duration.from_secs 600

/-- `LeaseExtensionSetting::bounded_duration` of `lease.rs`, lines 54-75:
cap the candidate by `max_extension_period` when set, then floor it by
`min_extension_period` when set, otherwise by the 60s exactly-once floor or
the 10s default floor. -/
def LeaseExtensionSetting.bounded_duration (self : LeaseExtensionSetting)
    (ack_deadline : Duration) (exactly_once : Bool) : Duration :=
  let ack_deadline :=
    match self.max_extension_period with
    | some max_ext => min ack_deadline max_ext
    | none => ack_deadline
  match self.min_extension_period with
  | some min_ext => max ack_deadline min_ext
  | none =>
    if exactly_once then
      max ack_deadline LeaseExtensionSetting.MIN_DURATION_PER_LEASE_EXTENSION_EXACTLY_ONCE
    else
      max ack_deadline LeaseExtensionSetting.MIN_DURATION_PER_LEASE_EXTENSION

/-- The struct `Deadline` of `lease.rs` (field `max` is the lifetime ceiling). -/
structure Deadline where
  start : Instant
  max : Instant
deriving DecidableEq

/-- `LeaseExtensionSetting::new_deadline` of `lease.rs`, lines 77-82. -/
def LeaseExtensionSetting.new_deadline (self : LeaseExtensionSetting)
    (start : Instant) : Deadline :=
  ⟨start, start + self.max_extension⟩

/-- The `Default` impl for `LeaseExtensionSetting`: 60 minutes of total
extension, both optional bounds unset. -/
def LeaseExtensionSetting.default_setting : LeaseExtensionSetting :=
  ⟨Duration.from_secs (60 * 60), none, none⟩

/-- `HashMap::insert` as used by the tracker: replace the value stored for an
existing key, otherwise add the binding. -/
def map_insert (l : List (String × Deadline)) (k : String) (v : Deadline) :
    List (String × Deadline) :=
  match l with
  | [] => [(k, v)]
  | (k0, v0) :: rest =>
    if k0 = k then (k, v) :: rest else (k0, v0) :: map_insert rest k v

/-- `HashMap::remove` as used by the tracker: delete the key's binding and
return its value, `none` when the key is absent. -/
def map_remove (l : List (String × Deadline)) (k : String) :
    Option Deadline × List (String × Deadline) :=
  match l with
  | [] => (none, [])
  | (k0, v0) :: rest =>
    if k0 = k then (some v0, rest)
    else
      let r := map_remove rest k
      (r.1, (k0, v0) :: r.2)

/-- `HashMap::get` (lookup), used to state properties of the tracker. -/
def map_get (l : List (String × Deadline)) (k : String) : Option Deadline :=
  match l with
  | [] => none
  | (k0, v0) :: rest => if k0 = k then some v0 else map_get rest k

/-- The struct `DeadlinesTracker` of `lease.rs`. -/
structure DeadlinesTracker where
  setting : LeaseExtensionSetting
  exactly_once : Bool
  deadlines : List (String × Deadline)
deriving DecidableEq

/-- `DeadlinesTracker::new` of `lease.rs`, lines 111-113. The source's struct
literal omits an initializer for the `deadlines` field; the tracker starts
with no tracked message, modelled as the empty map. No validation of the
setting is performed. -/
def DeadlinesTracker.new (setting : LeaseExtensionSetting) (exactly_once : Bool) :
    DeadlinesTracker :=
  ⟨setting, exactly_once, []⟩

/-- `DeadlinesTracker::register` of `lease.rs`, lines 115-121, with
`Instant::now()` passed explicitly as `now`. -/
def DeadlinesTracker.register (self : DeadlinesTracker) (ack_id : String)
    (now : Instant) : Deadline × DeadlinesTracker :=
  let deadline := self.setting.new_deadline now
  (deadline, ⟨self.setting, self.exactly_once, map_insert self.deadlines ack_id deadline⟩)

/-- `DeadlinesTracker::done` of `lease.rs`, lines 123-126. -/
def DeadlinesTracker.done (self : DeadlinesTracker) (ack_id : String) :
    Option Deadline × DeadlinesTracker :=
  let r := map_remove self.deadlines ack_id
  (r.1, ⟨self.setting, self.exactly_once, r.2⟩)

/-- Lookup of a tracked id, the `HashMap` lookup on the tracker's map. -/
abbrev DeadlinesTracker.lookup (self : DeadlinesTracker) (ack_id : String) :
    Option Deadline :=
  map_get self.deadlines ack_id

/-- Well-formedness: the tracker holds at most one state per id (the keys of
the underlying map are pairwise distinct) — the invariant a `HashMap`
maintains, proved below for every operation sequence. -/
abbrev DeadlinesTracker.wf (self : DeadlinesTracker) : Prop :=
  (self.deadlines.map Prod.fst).Nodup

/-- Modelled from the spec: the Extension Scheduler and its query
`due_before(instant)` (spec §4.2/§4.3) are not part of the source fragment.
The spec returns the ids whose `next_due <= instant` and whose
`ceiling > now`; the source's `Deadline` carries no `next_due` field, so
this model keeps only the ceiling test, an over-approximation (superset) of
the really-due ids — conservative for the "never returned" properties
proved below. -/
def DeadlinesTracker.due_before (self : DeadlinesTracker) (now : Instant) :
    List String :=
  (self.deadlines.filter (fun p => decide (now < p.2.max))).map Prod.fst

/-- Modelled from the spec: the configuration-validity predicate of spec §3
and §7 ("bounds outside [10s,600s], or min_extension_period >
max_extension_period" is a ConfigurationError). The source performs no such
validation; this definition exists to state that fact. -/
def valid_config (s : LeaseExtensionSetting) : Bool :=
  (match s.max_extension_period with
   | some m => decide (Duration.from_secs 10 ≤ m ∧ m ≤ Duration.from_secs 600)
   | none => true) &&
  (match s.min_extension_period with
   | some m => decide (Duration.from_secs 10 ≤ m ∧ m ≤ Duration.from_secs 600)
   | none => true) &&
  (match s.max_extension_period, s.min_extension_period with
   | some mx, some mn => decide (mn ≤ mx)
   | _, _ => true)

/-- The reference computation of spec §4.1, written from the spec's own words:
"Step 1 — cap: if max_extension_period is set, candidate = min(candidate,
max_extension_period). Step 2 — floor: if min_extension_period is explicitly
set, candidate = max(candidate, min_extension_period); else if exactly_once
is true, floor to 60s; else floor to 10s." -/
def bounded_duration_spec_ref (s : LeaseExtensionSetting) (candidate : Duration)
    (exactly_once : Bool) : Duration :=
  let capped :=
    match s.max_extension_period with
    | some mx => min candidate mx
    | none => candidate
  match s.min_extension_period with
  | some mn => max capped mn
  | none =>
    if exactly_once then max capped (Duration.from_secs 60)
    else max capped (Duration.from_secs 10)

/-- An operation against the tracker's public mutating interface. -/
inductive TrackerOp where
  | opRegister (ack_id : String) (now : Instant)
  | opDone (ack_id : String)
deriving DecidableEq

/-- Apply one tracker operation, discarding the returned value. -/
def DeadlinesTracker.apply_op (self : DeadlinesTracker) : TrackerOp → DeadlinesTracker
  | .opRegister ack_id now => (self.register ack_id now).2
  | .opDone ack_id => (self.done ack_id).2

/-- Run a sequence of tracker operations. -/
def DeadlinesTracker.run_ops (self : DeadlinesTracker) (ops : List TrackerOp) :
    DeadlinesTracker :=
  ops.foldl DeadlinesTracker.apply_op self

/-! ### Map lemmas -/

theorem map_get_insert_self (l : List (String × Deadline)) (k : String) (v : Deadline) :
    map_get (map_insert l k v) k = some v := by
  induction l with
  | nil => simp [map_insert, map_get]
  | cons hd tl ih =>
    obtain ⟨k0, v0⟩ := hd
    by_cases h : k0 = k
    · simp [map_insert, map_get, h]
    · simp [map_insert, map_get, h, ih]

theorem map_get_insert_ne (l : List (String × Deadline)) (k k2 : String) (v : Deadline)
    (h : k2 ≠ k) : map_get (map_insert l k v) k2 = map_get l k2 := by
  induction l with
  | nil => simp [map_insert, map_get, Ne.symm h]
  | cons hd tl ih =>
    obtain ⟨k0, v0⟩ := hd
    by_cases h0 : k0 = k
    · subst h0
      simp [map_insert, map_get, Ne.symm h]
    · simp only [map_insert, if_neg h0, map_get]
      by_cases h2 : k0 = k2 <;> simp [h2, ih]

theorem map_remove_fst (l : List (String × Deadline)) (k : String) :
    (map_remove l k).1 = map_get l k := by
  induction l with
  | nil => simp [map_remove, map_get]
  | cons hd tl ih =>
    obtain ⟨k0, v0⟩ := hd
    by_cases h : k0 = k
    · simp [map_remove, map_get, h]
    · simp [map_remove, map_get, h, ih]

theorem map_remove_of_get_none (l : List (String × Deadline)) (k : String)
    (h : map_get l k = none) : map_remove l k = (none, l) := by
  induction l with
  | nil => simp [map_remove]
  | cons hd tl ih =>
    obtain ⟨k0, v0⟩ := hd
    by_cases h0 : k0 = k
    · simp [map_get, h0] at h
    · simp only [map_get, if_neg h0] at h
      simp [map_remove, h0, ih h]

theorem map_get_remove_ne (l : List (String × Deadline)) (k k2 : String)
    (h : k2 ≠ k) : map_get (map_remove l k).2 k2 = map_get l k2 := by
  induction l with
  | nil => simp [map_remove]
  | cons hd tl ih =>
    obtain ⟨k0, v0⟩ := hd
    by_cases h0 : k0 = k
    · subst h0
      simp [map_remove, map_get, Ne.symm h]
    · simp only [map_remove, if_neg h0, map_get]
      by_cases h2 : k0 = k2 <;> simp [h2, ih]

theorem map_get_eq_none_iff (l : List (String × Deadline)) (k : String) :
    map_get l k = none ↔ k ∉ l.map Prod.fst := by
  induction l with
  | nil => simp [map_get]
  | cons hd tl ih =>
    obtain ⟨k0, v0⟩ := hd
    by_cases h0 : k0 = k
    · simp [map_get, h0]
    · simp [map_get, h0, ih, Ne.symm h0]

theorem mem_keys_insert (l : List (String × Deadline)) (k : String) (v : Deadline)
    (x : String) (hx : x ∈ (map_insert l k v).map Prod.fst) :
    x = k ∨ x ∈ l.map Prod.fst := by
  induction l with
  | nil => simpa [map_insert] using hx
  | cons hd tl ih =>
    obtain ⟨k0, v0⟩ := hd
    by_cases h0 : k0 = k
    · simp only [map_insert, if_pos h0] at hx
      simp only [List.map_cons, List.mem_cons] at hx ⊢
      rcases hx with h | h
      · exact Or.inl h
      · exact Or.inr (Or.inr h)
    · simp only [map_insert, if_neg h0] at hx
      simp only [List.map_cons, List.mem_cons] at hx ⊢
      rcases hx with h | h
      · exact Or.inr (Or.inl h)
      · rcases ih h with h | h
        · exact Or.inl h
        · exact Or.inr (Or.inr h)

theorem map_insert_nodup (l : List (String × Deadline)) (k : String) (v : Deadline)
    (h : (l.map Prod.fst).Nodup) : ((map_insert l k v).map Prod.fst).Nodup := by
  induction l with
  | nil => simp [map_insert]
  | cons hd tl ih =>
    obtain ⟨k0, v0⟩ := hd
    simp only [List.map_cons, List.nodup_cons] at h
    by_cases h0 : k0 = k
    · subst h0
      simpa [map_insert] using h
    · simp only [map_insert, if_neg h0, List.map_cons, List.nodup_cons]
      refine ⟨fun hmem => ?_, ih h.2⟩
      rcases mem_keys_insert tl k v k0 hmem with h1 | h1
      · exact h0 h1
      · exact h.1 h1

theorem mem_keys_remove (l : List (String × Deadline)) (k : String)
    (x : String) (hx : x ∈ ((map_remove l k).2).map Prod.fst) :
    x ∈ l.map Prod.fst := by
  induction l with
  | nil => simp [map_remove] at hx
  | cons hd tl ih =>
    obtain ⟨k0, v0⟩ := hd
    by_cases h0 : k0 = k
    · simp only [map_remove, if_pos h0] at hx
      simp only [List.map_cons, List.mem_cons]
      exact Or.inr hx
    · simp only [map_remove, if_neg h0] at hx
      simp only [List.map_cons, List.mem_cons] at hx ⊢
      rcases hx with h | h
      · exact Or.inl h
      · exact Or.inr (ih h)

theorem map_remove_nodup (l : List (String × Deadline)) (k : String)
    (h : (l.map Prod.fst).Nodup) : (((map_remove l k).2).map Prod.fst).Nodup := by
  induction l with
  | nil => simp [map_remove]
  | cons hd tl ih =>
    obtain ⟨k0, v0⟩ := hd
    simp only [List.map_cons, List.nodup_cons] at h
    by_cases h0 : k0 = k
    · simp only [map_remove, if_pos h0]
      exact h.2
    · simp only [map_remove, if_neg h0, List.map_cons, List.nodup_cons]
      exact ⟨fun hmem => h.1 (mem_keys_remove tl k k0 hmem), ih h.2⟩

theorem map_get_remove_self (l : List (String × Deadline)) (k : String)
    (h : (l.map Prod.fst).Nodup) : map_get (map_remove l k).2 k = none := by
  induction l with
  | nil => simp [map_remove, map_get]
  | cons hd tl ih =>
    obtain ⟨k0, v0⟩ := hd
    simp only [List.map_cons, List.nodup_cons] at h
    by_cases h0 : k0 = k
    · subst h0
      simp only [map_remove, if_pos rfl]
      exact (map_get_eq_none_iff tl k0).2 h.1
    · simp only [map_remove, if_neg h0, map_get, if_neg h0]
      exact ih h.2

theorem mem_insert_eq_key (l : List (String × Deadline)) (k : String) (v : Deadline)
    (hN : (l.map Prod.fst).Nodup) (p : String × Deadline) (hp : p ∈ map_insert l k v)
    (hk : p.1 = k) : p = (k, v) := by
  induction l with
  | nil => simpa [map_insert] using hp
  | cons hd tl ih =>
    obtain ⟨k0, v0⟩ := hd
    simp only [List.map_cons, List.nodup_cons] at hN
    by_cases h0 : k0 = k
    · simp only [map_insert, if_pos h0, List.mem_cons] at hp
      rcases hp with h | h
      · exact h
      · exfalso
        apply hN.1
        rw [h0, ← hk]
        exact List.mem_map_of_mem Prod.fst h
    · simp only [map_insert, if_neg h0, List.mem_cons] at hp
      rcases hp with h | h
      · exfalso
        apply h0
        rw [← hk, h]
      · exact ih hN.2 h

theorem map_remove_insert_of_get_none (l : List (String × Deadline)) (k : String)
    (v : Deadline) (h : map_get l k = none) :
    map_remove (map_insert l k v) k = (some v, l) := by
  induction l with
  | nil => simp [map_insert, map_remove]
  | cons hd tl ih =>
    obtain ⟨k0, v0⟩ := hd
    by_cases h0 : k0 = k
    · simp [map_get, h0] at h
    · simp only [map_get, if_neg h0] at h
      simp [map_insert, map_remove, h0, ih h]

/-- Every id returned by a due query is tracked with a deadline whose ceiling
is still in the future. -/
theorem mem_due_before (t : DeadlinesTracker) (now : Instant) (x : String)
    (hx : x ∈ t.due_before now) :
    ∃ d, (x, d) ∈ t.deadlines ∧ now < d.max := by
  simp only [DeadlinesTracker.due_before, List.mem_map, List.mem_filter] at hx
  obtain ⟨⟨k, d⟩, ⟨hmem, hlt⟩, hfst⟩ := hx
  simp only at hfst
  subst hfst
  exact ⟨d, hmem, by simpa using hlt⟩

/-! ### The claims -/

/-- Claim C1, counterexample: with both optional bounds absent, the candidate
601 seconds is returned unchanged by `bounded_duration`, exceeding the
claimed 600-second upper bound (the 600s constant is declared in the source
but never applied). -/
theorem bounded_duration_can_exceed_600s :
    ¬ ((⟨Duration.from_secs 3600, none, none⟩ : LeaseExtensionSetting).bounded_duration
        (Duration.from_secs 601) false ≤ Duration.from_secs 600) := by decide

/-- Claim C1, amended: when both `max_extension_period` and
`min_extension_period` are absent, `bounded_duration` equals
`max candidate floor` with a 60s floor in exactly-once mode and a 10s floor
otherwise; the result is therefore always at least 10s and never negative,
for both values of `exactly_once`, but no 600s upper cap is applied. -/
theorem bounded_duration_default_floor (max_ext c : Duration) (e : Bool) :
    LeaseExtensionSetting.MIN_DURATION_PER_LEASE_EXTENSION ≤
      (⟨max_ext, none, none⟩ : LeaseExtensionSetting).bounded_duration c e ∧
    (⟨max_ext, none, none⟩ : LeaseExtensionSetting).bounded_duration c e =
      max c (if e then Duration.from_secs 60 else Duration.from_secs 10) := by
  cases e <;>
    constructor <;>
      simp [LeaseExtensionSetting.bounded_duration,
        LeaseExtensionSetting.MIN_DURATION_PER_LEASE_EXTENSION,
        LeaseExtensionSetting.MIN_DURATION_PER_LEASE_EXTENSION_EXACTLY_ONCE,
        Duration.from_secs]

/-- A configuration violating the spec's invariant on both counts: its
`min_extension_period` of 700s lies outside [10s, 600s] and exceeds its
`max_extension_period` of 20s. -/
def invalid_setting : LeaseExtensionSetting :=
  ⟨Duration.from_secs 3600, some (Duration.from_secs 20), some (Duration.from_secs 700)⟩

/-- Claim C2, counterexample: constructing the tracker with a configuration
that violates the spec's invariant does not fail — `DeadlinesTracker::new`
performs no validation and stores the invalid setting unchanged. -/
theorem tracker_new_accepts_invalid_config :
    valid_config invalid_setting = false ∧
    DeadlinesTracker.new invalid_setting false = ⟨invalid_setting, false, []⟩ :=
  ⟨by decide, rfl⟩

/-- Claim C2, amended: construction never fails and performs no validation
whatsoever: for every configuration, valid or not, `DeadlinesTracker::new`
returns the tracker holding that configuration, the given exactly-once flag
and no tracked message. -/
theorem tracker_new_never_fails (s : LeaseExtensionSetting) (e : Bool) :
    (DeadlinesTracker.new s e).setting = s ∧
    (DeadlinesTracker.new s e).exactly_once = e ∧
    (DeadlinesTracker.new s e).deadlines = [] :=
  ⟨rfl, rfl, rfl⟩

/-- Claim C3: for every candidate and mode, `bounded_duration` equals the
spec's two-step reference computation (cap by `max_extension_period` when
set, then floor by `min_extension_period` when set, else by 60s in
exactly-once mode, else by 10s). -/
theorem bounded_duration_matches_spec_ref (s : LeaseExtensionSetting)
    (c : Duration) (e : Bool) :
    s.bounded_duration c e = bounded_duration_spec_ref s c e := by
  obtain ⟨me, mep, mip⟩ := s
  cases mep <;> cases mip <;> cases e <;> rfl

/-- A cap at `M` followed by a floor at `m` is idempotent as one `Nat`
function, also when `m > M`. -/
theorem cap_floor_idem (c m M : Nat) :
    max (min (max (min c M) m) M) m = max (min c M) m := by
  rcases Nat.le_total m M with h | h
  · rw [min_eq_left (max_le (min_le_right c M) h), max_assoc, max_self]
  · have h1 : min c M ≤ m := le_trans (min_le_right c M) h
    rw [max_eq_right h1, min_eq_right h, max_eq_right h]

/-- Claim C4: for every configuration — including misconfigured ones with
`min_extension_period > max_extension_period` — and every mode,
`bounded_duration` is idempotent. -/
theorem bounded_duration_idempotent (s : LeaseExtensionSetting)
    (c : Duration) (e : Bool) :
    s.bounded_duration (s.bounded_duration c e) e = s.bounded_duration c e := by
  obtain ⟨me, mep, mip⟩ := s
  cases mep with
  | none =>
    cases mip with
    | none =>
      cases e
      · show max (max c _) _ = max c _
        rw [max_assoc, max_self]
      · show max (max c _) _ = max c _
        rw [max_assoc, max_self]
    | some m =>
      show max (max c m) m = max c m
      rw [max_assoc, max_self]
  | some M =>
    cases mip with
    | none =>
      cases e
      · show max (min (max (min c M) _) M) _ = max (min c M) _
        exact cap_floor_idem c _ M
      · show max (min (max (min c M) _) M) _ = max (min c M) _
        exact cap_floor_idem c _ M
    | some m =>
      show max (min (max (min c M) m) M) m = max (min c M) m
      exact cap_floor_idem c m M

/-- A well-formed tracker holding one in-flight message, used to witness the
hypotheses of the tracker theorems. -/
def tracker_sample : DeadlinesTracker :=
  ⟨LeaseExtensionSetting.default_setting, false, [("m1", ⟨0, 3600000000000⟩)]⟩

/-- Claim C5: `done` removes and returns the state exactly when the id is
tracked, and is idempotent: on a well-formed tracker, after one `done` the id
is gone, and a second `done` for it returns `none` and leaves the tracker
unchanged — never an error. -/
theorem done_removes_and_is_idempotent (t : DeadlinesTracker) (ack_id : String)
    (h : t.wf) :
    (t.done ack_id).1 = t.lookup ack_id ∧
    ((t.done ack_id).2).lookup ack_id = none ∧
    ((t.done ack_id).2).done ack_id = (none, (t.done ack_id).2) := by
  have h2 : map_get (map_remove t.deadlines ack_id).2 ack_id = none :=
    map_get_remove_self t.deadlines ack_id h
  refine ⟨map_remove_fst _ _, h2, ?_⟩
  show (_, (⟨t.setting, t.exactly_once, _⟩ : DeadlinesTracker)) = _
  rw [DeadlinesTracker.done]
  simp [map_remove_of_get_none _ _ h2]

/-- Claim C5, witness at a concrete tracker. -/
theorem done_removes_and_is_idempotent_witness :
    (tracker_sample.done "m1").1 = tracker_sample.lookup "m1" ∧
    ((tracker_sample.done "m1").2).lookup "m1" = none ∧
    ((tracker_sample.done "m1").2).done "m1" = (none, (tracker_sample.done "m1").2) :=
  done_removes_and_is_idempotent tracker_sample "m1" (by decide)

/-- Claim C6: registering an untracked id and immediately completing it
returns exactly the state `register` created, after which the id is no
longer tracked and no due query at any instant returns it. -/
theorem register_then_done_roundtrip (t : DeadlinesTracker) (ack_id : String)
    (now inst : Instant) (h : t.lookup ack_id = none) :
    ((t.register ack_id now).2.done ack_id).1 = some (t.register ack_id now).1 ∧
    (((t.register ack_id now).2.done ack_id).2).lookup ack_id = none ∧
    ack_id ∉ ((((t.register ack_id now).2).done ack_id).2).due_before inst := by
  have key := map_remove_insert_of_get_none t.deadlines ack_id
      (t.setting.new_deadline now) h
  refine ⟨?_, ?_, ?_⟩
  · show (map_remove (map_insert t.deadlines ack_id
        (t.setting.new_deadline now)) ack_id).1 = some (t.setting.new_deadline now)
    rw [key]
  · show map_get (map_remove (map_insert t.deadlines ack_id
        (t.setting.new_deadline now)) ack_id).2 ack_id = none
    rw [key]
    exact h
  · intro hmem
    obtain ⟨d, hd, _⟩ := mem_due_before _ _ _ hmem
    have hd2 : (ack_id, d) ∈ (map_remove (map_insert t.deadlines ack_id
        (t.setting.new_deadline now)) ack_id).2 := hd
    rw [key] at hd2
    exact (map_get_eq_none_iff t.deadlines ack_id).1 h
      (List.mem_map_of_mem Prod.fst hd2)

/-- Claim C6, witness: register then complete id "m1" on a fresh tracker. -/
theorem register_then_done_roundtrip_witness :
    (((DeadlinesTracker.new LeaseExtensionSetting.default_setting false).register
        "m1" 0).2.done "m1").1 =
      some ((DeadlinesTracker.new LeaseExtensionSetting.default_setting false).register
        "m1" 0).1 ∧
    ((((DeadlinesTracker.new LeaseExtensionSetting.default_setting false).register
        "m1" 0).2.done "m1").2).lookup "m1" = none ∧
    "m1" ∉ (((((DeadlinesTracker.new LeaseExtensionSetting.default_setting
        false).register "m1" 0).2).done "m1").2).due_before 5 :=
  register_then_done_roundtrip
    (DeadlinesTracker.new LeaseExtensionSetting.default_setting false) "m1" 0 5 rfl

/-- Claim C7: the tracker never holds two states for one id — every sequence
of register/done operations from a fresh tracker keeps the key list
duplicate-free — and duplicate registration resolves deterministically: the
second registration replaces the first, so the id maps to the newer state. -/
theorem tracker_at_most_one_state_per_id :
    (∀ (s : LeaseExtensionSetting) (e : Bool) (ops : List TrackerOp),
      ((DeadlinesTracker.new s e).run_ops ops).wf) ∧
    (∀ (t : DeadlinesTracker) (ack_id : String) (n1 n2 : Instant),
      (((t.register ack_id n1).2.register ack_id n2).2).lookup ack_id =
        some (t.setting.new_deadline n2)) := by
  constructor
  · intro s e ops
    have step : ∀ (t : DeadlinesTracker) (op : TrackerOp), t.wf → (t.apply_op op).wf := by
      intro t op ht
      cases op with
      | opRegister ack_id now => exact map_insert_nodup _ _ _ ht
      | opDone ack_id => exact map_remove_nodup _ _ ht
    have run : ∀ (ops : List TrackerOp) (t : DeadlinesTracker),
        t.wf → (t.run_ops ops).wf := by
      intro ops
      induction ops with
      | nil => exact fun t ht => ht
      | cons op rest ih => exact fun t ht => ih _ (step t op ht)
    exact run ops _ List.nodup_nil
  · intro t ack_id n1 n2
    exact map_get_insert_self _ _ _

/-- Claim C8: when `max_extension` is zero (the only non-positive Rust
duration), the state `register` creates has its ceiling equal to its start
instant, and the id is never eligible for extension: no due query at any
instant at or after the start returns it. -/
theorem zero_max_extension_never_due (t : DeadlinesTracker) (ack_id : String)
    (start now : Instant) (h0 : t.setting.max_extension = 0) (hwf : t.wf)
    (hle : start ≤ now) :
    (t.register ack_id start).1.max = start ∧
    ack_id ∉ ((t.register ack_id start).2).due_before now := by
  have hmax : (t.setting.new_deadline start).max = start := by
    simp [LeaseExtensionSetting.new_deadline, h0]
  refine ⟨hmax, ?_⟩
  intro hmem
  obtain ⟨d, hd, hlt⟩ := mem_due_before _ _ _ hmem
  have heq := mem_insert_eq_key t.deadlines ack_id (t.setting.new_deadline start)
    hwf (ack_id, d) hd rfl
  have hdd : d = t.setting.new_deadline start := congrArg Prod.snd heq
  rw [hdd, hmax] at hlt
  exact absurd hlt (Nat.not_lt.mpr hle)

/-- Claim C8, witness: zero total extension on a fresh tracker, queried at a
later instant. -/
theorem zero_max_extension_never_due_witness :
    ((DeadlinesTracker.new ⟨0, none, none⟩ false).register "m1" 0).1.max = 0 ∧
    "m1" ∉ (((DeadlinesTracker.new ⟨0, none, none⟩ false).register "m1"
      0).2).due_before 7 :=
  zero_max_extension_never_due (DeadlinesTracker.new ⟨0, none, none⟩ false)
    "m1" 0 7 rfl (by decide) (by decide)

/-- Claim C9: `new_deadline` is a pure construction: the returned state's
start field is the given instant and its ceiling is start plus
`max_extension`. -/
theorem new_deadline_pure (s : LeaseExtensionSetting) (start : Instant) :
    (s.new_deadline start).start = start ∧
    (s.new_deadline start).max = start + s.max_extension :=
  ⟨rfl, rfl⟩

/-- Claim C10: frame property — `register` and `done` for one id leave every
other id's state (or its absence), the stored configuration and the
exactly-once flag unchanged. -/
theorem register_done_frame (t : DeadlinesTracker) (ack_id other : String)
    (now : Instant) (h : other ≠ ack_id) :
    ((t.register ack_id now).2).lookup other = t.lookup other ∧
    ((t.register ack_id now).2).setting = t.setting ∧
    ((t.register ack_id now).2).exactly_once = t.exactly_once ∧
    ((t.done ack_id).2).lookup other = t.lookup other ∧
    ((t.done ack_id).2).setting = t.setting ∧
    ((t.done ack_id).2).exactly_once = t.exactly_once :=
  ⟨map_get_insert_ne _ _ _ _ h, rfl, rfl, map_get_remove_ne _ _ _ h, rfl, rfl⟩

/-- Claim C10, witness: registering and completing id "a" does not disturb the
tracked id "m1". -/
theorem register_done_frame_witness :
    ((tracker_sample.register "a" 3).2).lookup "m1" = tracker_sample.lookup "m1" ∧
    ((tracker_sample.register "a" 3).2).setting = tracker_sample.setting ∧
    ((tracker_sample.register "a" 3).2).exactly_once = tracker_sample.exactly_once ∧
    ((tracker_sample.done "a").2).lookup "m1" = tracker_sample.lookup "m1" ∧
    ((tracker_sample.done "a").2).setting = tracker_sample.setting ∧
    ((tracker_sample.done "a").2).exactly_once = tracker_sample.exactly_once :=
  register_done_frame tracker_sample "a" "m1" 3 (by decide)
